import Mathlib

/-!
Shallow embedding of the PDF redactor application (src/app.py) and proofs
about its specified behaviour.

The embedding covers the parts of the program the claims are about:

* the pattern registry (PII_PATTERNS, PREMIUM_PATTERNS) together with a
  backtracking regular-expression matcher that reproduces the semantics of
  Python re.finditer with re.IGNORECASE on ASCII text: leftmost scan,
  greedy quantifiers, left-preferring alternation, non-overlapping matches;
* find_pii_in_text and find_pii_in_pdf;
* redact_pdf, embedded as the sequence of mark / commit events it performs
  against the external PDF library, with Python list-index semantics;
* render_pdf_preview, with drawing modelled as an overlay attached to the
  per-call rasterisation result;
* the Streamlit session commands of show_main_app: the upload block, the
  Select All / Clear All buttons, the per-match checkbox write, the manual
  addition block, the redact button and the download button.

The external PDF library (PyMuPDF, imported as fitz) is represented at its
interface boundary: a document is a list of pages, a page carries the text
returned by page.get_text and the rectangle search page.search_for, and
opening bytes is a caller-supplied function from bytes to Option Doc whose
none result stands for the exception raised on unparsable input.
-/

namespace PdfRedactor

/-! ### Character classes (ASCII fragment of the Python re classes) -/

/-- Word character, the ASCII fragment of Python backslash-w used for
word-boundary tests. -/
def wordChar (c : Char) : Bool := c.isAlphanum || c == '_'

/-- Whitespace, the ASCII fragment of Python backslash-s. -/
def psSpace (c : Char) : Bool :=
  c == ' ' || c == '\t' || c == '\n' || c == '\r' || c == '\x0b' || c == '\x0c'

/-- Case-insensitive character comparison, the effect of re.IGNORECASE on a
literal pattern character. -/
def eqi (a b : Char) : Bool := a == b || a.toLower == b.toLower

/-! ### Regular expressions

Abstract syntax for the fragment of Python re used by the pattern
registry: character classes, concatenation, alternation, greedy star and
word boundaries.  Bounded repetitions and option are desugared below. -/

inductive RE where
  | eps : RE
  | cls (p : Char → Bool) : RE
  | cat (a b : RE) : RE
  | alt (a b : RE) : RE
  | star (a : RE) : RE
  | wb : RE

/-- Word boundary test of Python at absolute position i of s. -/
def wbAt (s : List Char) (i : Nat) : Bool :=
  let before := match i with
    | 0 => false
    | j + 1 => ((s.get? j).map wordChar).getD false
  let after := ((s.get? i).map wordChar).getD false
  before != after

/-- All end positions of a greedy star, in backtracking preference order
(most iterations first, zero iterations last).  The body is required to
consume at least one character per iteration, which holds for every star
in the registry; fuel bounds the number of iterations. -/
def starEnds : Nat → (List Char → Nat → List Nat) → List Char → Nat → List Nat
  | 0, _, _, i => [i]
  | f + 1, g, s, i =>
      (((g s i).filter (fun j => i < j)).flatMap (fun j => starEnds f g s j)) ++ [i]

/-- All end positions of a match of r starting at position i of s, in
Python backtracking preference order; the head of the list is the end
position re.match would report. -/
def ends : RE → List Char → Nat → List Nat
  | .eps, _, i => [i]
  | .cls p, s, i =>
      match s.get? i with
      | some c => if p c then [i + 1] else []
      | none => []
  | .cat a b, s, i => (ends a s i).flatMap (fun j => ends b s j)
  | .alt a b, s, i => ends a s i ++ ends b s i
  | .star a, s, i => starEnds (s.length + 1) (ends a) s i
  | .wb, s, i => if wbAt s i then [i] else []

/-- End position of the match of r at position i of s, if any, following
Python backtracking semantics. -/
def reMatchEnd (r : RE) (s : List Char) (i : Nat) : Option Nat :=
  (ends r s i).head?

/-- Scanner of re.finditer: non-overlapping matches, scanning start
positions left to right, advancing past each match (by one position after
an empty match). -/
def finditerF : Nat → RE → List Char → Nat → List (Nat × Nat)
  | 0, _, _, _ => []
  | f + 1, r, s, i =>
      if s.length < i then []
      else
        match reMatchEnd r s i with
        | some e => (i, e) :: finditerF f r s (if i < e then e else i + 1)
        | none => finditerF f r s (i + 1)

/-- All matches of r in s as (start, end) offset pairs, re.finditer. -/
def finditer (r : RE) (s : List Char) : List (Nat × Nat) :=
  finditerF (s.length + 1) r s 0

/-! ### Pattern constructors -/

/-- Single literal character, compared case-insensitively. -/
def ch (c : Char) : RE := RE.cls (fun x => eqi c x)

/-- Character class given by an explicit list, case-insensitive. -/
def clsOf (l : List Char) : RE := RE.cls (fun x => l.any (fun c => eqi c x))

/-- Concatenation of a list of regular expressions. -/
def reSeq (l : List RE) : RE := l.foldr RE.cat RE.eps

/-- Literal string, compared case-insensitively. -/
def lstr (s : String) : RE := reSeq (s.data.map ch)

/-- Greedy option, ? in Python syntax. -/
def reOpt (r : RE) : RE := RE.alt r RE.eps

/-- Exactly n repetitions. -/
def reRep : Nat → RE → RE
  | 0, _ => RE.eps
  | n + 1, r => RE.cat r (reRep n r)

/-- Greedy bounded repetition, between m and n occurrences. -/
def reRepRange (m n : Nat) (r : RE) : RE :=
  RE.cat (reRep m r) (reRep (n - m) (reOpt r))

/-- Greedy plus, one or more occurrences. -/
def rePlus (r : RE) : RE := RE.cat r (RE.star r)

/-- Greedy repetition of at least m occurrences. -/
def reRepAtLeast (m : Nat) (r : RE) : RE := RE.cat (reRep m r) (RE.star r)

/-- Digit class, backslash-d. -/
def digit : RE := RE.cls Char.isDigit

/-- Word-character class, backslash-w. -/
def wchar : RE := RE.cls wordChar

/-- Whitespace class, backslash-s. -/
def sp : RE := RE.cls psSpace

/-- The apostrophe character, written by code point. -/
def apos : Char := Char.ofNat 39

/-! ### The pattern registry (PII_PATTERNS and PREMIUM_PATTERNS of src/app.py)

Each definition transcribes one pattern string of the registry into the
abstract syntax above, preserving grouping, alternation order and
quantifier greediness. -/

/-- Class [X*] of the masked SSN patterns. -/
def maskCh : RE := clsOf ['X', '*']

/-- Class of whitespace or colon. -/
def spColon : RE := RE.cls (fun c => psSpace c || c == ':')

/-- Class of whitespace, hash or colon. -/
def spHashColon : RE := RE.cls (fun c => psSpace c || c == '#' || c == ':')

/-- Class of slash or hyphen separating date fields. -/
def dateSep : RE := clsOf ['/', '-']

/-- Class [-.] or whitespace separating phone groups. -/
def phoneSep : RE := RE.cls (fun c => c == '-' || c == '.' || psSpace c)

/-- Pattern of the key SSN (Full). -/
def reSSNFull : RE :=
  reSeq [RE.wb, reRep 3 digit, ch '-', reRep 2 digit, ch '-', reRep 4 digit, RE.wb]

/-- Pattern of the key SSN (Partial). -/
def reSSNPartial : RE :=
  RE.alt
    (reSeq [RE.wb, reRepRange 3 5 maskCh, reOpt (ch '-'), reRep 2 maskCh,
            reOpt (ch '-'), reRep 4 digit, RE.wb])
    (reSeq [RE.wb, reRep 3 digit, reOpt (ch '-'), reRep 2 maskCh,
            reOpt (ch '-'), reRep 4 maskCh, RE.wb])

/-- Pattern of the key SSN (Last 4). -/
def reSSNLast4 : RE :=
  reSeq [RE.wb,
         RE.alt (lstr "SSN") (RE.alt (RE.cat (lstr "SS") (reOpt (ch '#'))) (lstr "Social")),
         RE.star spColon, RE.star maskCh, reRep 4 digit, RE.wb]

/-- Date body shared by the two date patterns. -/
def dateCore : RE :=
  reSeq [reRepRange 1 2 digit, dateSep, reRepRange 1 2 digit, dateSep, reRepRange 2 4 digit]

/-- Pattern of the key Date of Birth. -/
def reDOB : RE :=
  reSeq [RE.wb,
         RE.alt (lstr "DOB")
           (RE.alt (lstr "Date of Birth") (RE.alt (lstr "Birth Date") (lstr "Born"))),
         RE.star spColon, dateCore, RE.wb]

/-- Pattern of the key Date (MM/DD/YYYY). -/
def reDate : RE := reSeq [RE.wb, dateCore, RE.wb]

/-- Pattern of the Drivers License key. -/
def reDL : RE :=
  reSeq [RE.wb,
         RE.alt (lstr "DL")
           (RE.alt (reSeq [lstr "Driver", reOpt (ch apos), reOpt (ch 's'),
                           RE.star sp, lstr "License"])
                   (reSeq [lstr "License", RE.star sp, reOpt (ch '#')])),
         RE.star spColon, reOpt (RE.cls Char.isAlpha), reRepRange 6 12 digit, RE.wb]

/-- Pattern of the key Phone Number. -/
def rePhone : RE :=
  reSeq [RE.wb,
         reOpt (reSeq [reOpt (ch '+'), ch '1', reOpt phoneSep]),
         reOpt (ch '('), reRep 3 digit, reOpt (ch ')'), reOpt phoneSep,
         reRep 3 digit, reOpt phoneSep, reRep 4 digit, RE.wb]

/-- Local-part class of the Email pattern. -/
def emailLocalC : RE :=
  RE.cls (fun c => c.isAlphanum || c == '.' || c == '_' || c == '%' || c == '+' || c == '-')

/-- Domain class of the Email pattern. -/
def emailDomC : RE := RE.cls (fun c => c.isAlphanum || c == '.' || c == '-')

/-- Top-level-domain class of the Email pattern; the source class is
[A-Z|a-z] and therefore also admits the bar character. -/
def emailTldC : RE := RE.cls (fun c => c.isAlpha || c == '|')

/-- Pattern of the key Email. -/
def reEmail : RE :=
  reSeq [RE.wb, rePlus emailLocalC, ch '@', rePlus emailDomC, ch '.',
         reRepAtLeast 2 emailTldC, RE.wb]

/-- Pattern of the key Account Number. -/
def reAccount : RE :=
  RE.alt
    (reSeq [RE.wb, RE.alt (lstr "Account") (lstr "Acct"), RE.star spHashColon,
            RE.star maskCh, reRepAtLeast 4 digit, RE.wb])
    (reSeq [RE.wb, reRepAtLeast 4 maskCh, reRep 4 digit, RE.wb])

/-- Street-suffix alternation of the premium Street Address pattern. -/
def streetSuffix : RE :=
  RE.alt (lstr "Street") (RE.alt (lstr "St") (RE.alt (lstr "Avenue") (RE.alt (lstr "Ave")
    (RE.alt (lstr "Road") (RE.alt (lstr "Rd") (RE.alt (lstr "Boulevard") (RE.alt (lstr "Blvd")
      (RE.alt (lstr "Lane") (RE.alt (lstr "Ln") (RE.alt (lstr "Drive") (RE.alt (lstr "Dr")
        (RE.alt (lstr "Court") (RE.alt (lstr "Ct") (RE.alt (lstr "Way")
          (RE.alt (lstr "Circle") (lstr "Cir"))))))))))))))))

/-- Pattern of the premium key Street Address. -/
def reStreet : RE :=
  reSeq [RE.wb, reRepRange 1 5 digit, rePlus sp, rePlus wchar, rePlus sp, streetSuffix, RE.wb]

/-- Pattern of the premium key Zip Code. -/
def reZip : RE :=
  reSeq [RE.wb, reRep 5 digit, reOpt (RE.cat (ch '-') (reRep 4 digit)), RE.wb]

/-- Class [-] or whitespace of the Credit Card pattern. -/
def ccSep : RE := RE.cls (fun c => c == '-' || psSpace c)

/-- Pattern of the premium key Credit Card. -/
def reCredit : RE :=
  reSeq [RE.wb, reRep 3 (RE.cat (reRep 4 digit) (reOpt ccSep)), reRep 4 digit, RE.wb]

/-- Name of the Drivers License key, containing an apostrophe. -/
def dlName : String := "Driver" ++ String.singleton apos ++ "s License"

/-- PII_PATTERNS of src/app.py, in dictionary order. -/
def PII_PATTERNS : List (String × RE) :=
  [("SSN (Full)", reSSNFull),
   ("SSN (Partial)", reSSNPartial),
   ("SSN (Last 4)", reSSNLast4),
   ("Date of Birth", reDOB),
   ("Date (MM/DD/YYYY)", reDate),
   (dlName, reDL),
   ("Phone Number", rePhone),
   ("Email", reEmail),
   ("Account Number", reAccount)]

/-- PREMIUM_PATTERNS of src/app.py, in dictionary order. -/
def PREMIUM_PATTERNS : List (String × RE) :=
  [("Street Address", reStreet),
   ("Zip Code", reZip),
   ("Credit Card", reCredit)]

/-! ### Text matcher (find_pii_in_text of src/app.py) -/

/-- One match dictionary produced by find_pii_in_text; the Python keys are
type, text, start and end, the last renamed stop here. -/
structure TextMatch where
  type : String
  text : String
  start : Nat
  stop : Nat
deriving DecidableEq

/-- Substring s[a:b] of Python slicing. -/
def substr (s : List Char) (a b : Nat) : String := ⟨(s.drop a).take (b - a)⟩

/-- find_pii_in_text of src/app.py: runs every registry pattern over the
text (premium patterns appended when include_premium is set) and emits one
match per occurrence, in registry order then position order. -/
def find_pii_in_text (text : String) (include_premium : Bool) : List TextMatch :=
  let patterns := if include_premium then PII_PATTERNS ++ PREMIUM_PATTERNS else PII_PATTERNS
  patterns.flatMap (fun pr =>
    (finditer pr.2 text.data).map (fun se => ⟨pr.1, substr text.data se.1 se.2, se.1, se.2⟩))

/-! ### PDF access layer (the interface of fitz used by src/app.py)

A rectangle is an axis-aligned box in page coordinates; a page exposes the
text of page.get_text and the literal search page.search_for; a document
is its page list.  Opening bytes is a caller-supplied function whose none
result models the exception fitz.open raises on unparsable input. -/

/-- Axis-aligned rectangle in page coordinate space. -/
structure Rect where
  x0 : Int
  y0 : Int
  x1 : Int
  y1 : Int
deriving DecidableEq

/-- One page of an open document: the extracted text and the geometric
literal search. -/
structure Page where
  text : String
  searchFor : String → List Rect

/-- An open document, a list of pages. -/
structure Doc where
  pages : List Page

/-- Type of the modelled fitz.open: bytes to a document, none standing for
the exception raised on unparsable bytes. -/
abbrev FitzOpen := List Nat → Option Doc

/-- Python enumerate starting at n. -/
def enumF : Nat → List Page → List (Nat × Page)
  | _, [] => []
  | n, p :: ps => (n, p) :: enumF (n + 1) ps

/-- One entry of the session match list.  The Python dictionaries carry
the keys type, text, page and rects; the start and end keys present on
automatic matches are never read after find_pii_in_pdf and are dropped
here (manual matches do not have them). -/
structure PiiMatch where
  type : String
  text : String
  page : Nat
  rects : List Rect
deriving DecidableEq

/-- find_pii_in_pdf of src/app.py: opens the bytes, scans every page with
find_pii_in_text, and attaches to each textual match its 1-based page
number and the rectangles of page.search_for on the matched literal (an
empty list when the literal cannot be located). -/
def find_pii_in_pdf (fitz_open : FitzOpen) (pdf_bytes : List Nat)
    (include_premium : Bool) : Except Unit (List PiiMatch) :=
  match fitz_open pdf_bytes with
  | none => .error ()
  | some doc =>
      .ok ((enumF 0 doc.pages).flatMap (fun pp =>
        (find_pii_in_text pp.2.text include_premium).map (fun m =>
          ⟨m.type, m.text, pp.1 + 1, pp.2.searchFor m.text⟩)))

/-! ### Redaction engine (redact_pdf of src/app.py)

The engine is embedded as the sequence of calls it performs against the
open document: page.add_redact_annot becomes a mark event and
page.apply_redactions a commit event, both carrying the resolved 0-based
page index.  Page lookup doc[i] follows Python list indexing, including
negative-index wrap-around; an out-of-range index is the IndexError the
statement would raise. -/

/-- Python list index resolution for a list of length n. -/
def pyIndex (n : Nat) (i : Int) : Option Nat :=
  if 0 ≤ i ∧ i < n then some i.toNat
  else if -(n : Int) ≤ i ∧ i < 0 then some ((n : Int) + i).toNat
  else none

/-- The page index doc[item.page - 1] resolves to, defaulting to 0 when
out of range (only used under a validity hypothesis). -/
def pageIdx (npages : Nat) (it : PiiMatch) : Nat :=
  (pyIndex npages ((it.page : Int) - 1)).getD 0

/-- One call performed by redact_pdf against the open document. -/
inductive REvent where
  | mark (page : Nat) (r : Rect)
  | commit (page : Nat)
deriving DecidableEq

/-- The loop of redact_pdf: for each item, mark every rectangle of the
item on its page, then commit that page; an unresolvable page index
raises. -/
def redactLoop (npages : Nat) : List PiiMatch → Except Unit (List REvent)
  | [] => .ok []
  | it :: rest =>
      match pyIndex npages ((it.page : Int) - 1) with
      | none => .error ()
      | some p =>
          match redactLoop npages rest with
          | .error e => .error e
          | .ok tr => .ok ((it.rects.map (fun r => REvent.mark p r) ++ [REvent.commit p]) ++ tr)

/-- redact_pdf of src/app.py: open the bytes and run the marking loop;
the resulting event trace stands for the serialized output bytes. -/
def redact_pdf (fitz_open : FitzOpen) (pdf_bytes : List Nat)
    (items_to_redact : List PiiMatch) : Except Unit (List REvent) :=
  match fitz_open pdf_bytes with
  | none => .error ()
  | some doc => redactLoop doc.pages.length items_to_redact

/-- The per-item trace redact_pdf emits when every page resolves. -/
def traceOf (npages : Nat) (items : List PiiMatch) : List REvent :=
  items.flatMap (fun it =>
    it.rects.map (fun r => REvent.mark (pageIdx npages it) r) ++ [REvent.commit (pageIdx npages it)])

/-! ### Preview renderer (render_pdf_preview of src/app.py)

The rasterised output is modelled as the page value taken from the
freshly opened document together with the highlight rectangles drawn on
that per-call copy; the overlay exists only in this result. -/

/-- Rasterisation result: the source page and the overlay drawn on the
per-call document handle. -/
structure Pix where
  page : Page
  drawn : List Rect

/-- render_pdf_preview of src/app.py: open the bytes, draw every
rectangle of every highlight on the requested page of that fresh handle,
and return the rendered image together with the page count. -/
def render_pdf_preview (fitz_open : FitzOpen) (pdf_bytes : List Nat) (page_num : Nat)
    (highlights : List PiiMatch) : Except Unit (Pix × Nat) :=
  match fitz_open pdf_bytes with
  | none => .error ()
  | some doc =>
      match doc.pages.get? page_num with
      | none => .error ()
      | some page =>
          let drawn := (highlights.filter (fun h => h.page == page_num + 1)).flatMap
            (fun h => h.rects)
          .ok (⟨page, drawn⟩, doc.pages.length)

/-! ### Document session and the commands of show_main_app

The Streamlit session state of src/app.py holds pdf_bytes, filename,
matches, selected and redacted_pdf.  The selection dictionary is an
insertion-ordered association list, as Python dictionaries are.  Each
command below transcribes one block of show_main_app. -/

/-- The session state fields used by show_main_app; absent keys are none
or empty. -/
structure Session where
  pdf_bytes : Option (List Nat)
  filename : Option String
  «matches» : List PiiMatch
  selected : List (Nat × Bool)
  redacted_pdf : Option (List REvent)
deriving DecidableEq

/-- Dictionary assignment d[k] = v on an insertion-ordered association
list: overwrite in place when the key exists, append otherwise. -/
def setKey : List (Nat × Bool) → Nat → Bool → List (Nat × Bool)
  | [], k, v => [(k, v)]
  | p :: rest, k, v => if p.1 = k then (k, v) :: rest else p :: setKey rest k v

/-- Dictionary read d.get(k, dflt). -/
def getD (sel : List (Nat × Bool)) (k : Nat) (dflt : Bool) : Bool :=
  (sel.lookup k).getD dflt

/-- The selected-items list of line 394 of src/app.py, the argument later
passed to redact_pdf: the stored matches whose selection flag is set, in
dictionary order. -/
def selected_items (s : Session) : List PiiMatch :=
  (s.selected.filter (fun p => p.2)).filterMap (fun p => s.matches.get? p.1)

/-- The upload block of show_main_app (lines 313 to 321): when the session
holds no bytes or the stored filename differs, store the bytes and name,
then scan; the scan of unparsable bytes raises after the two stores, which
the returned flag records.  Otherwise the session is left untouched. -/
def uploadBlock (fitz_open : FitzOpen) (s : Session) (name : String) (bytes : List Nat)
    (is_premium : Bool) : Session × Bool :=
  if s.pdf_bytes = none ∨ s.filename ≠ some name then
    let s1 := { s with pdf_bytes := some bytes, filename := some name }
    match find_pii_in_pdf fitz_open bytes is_premium with
    | .error _ => (s1, true)
    | .ok ms =>
        ({ s1 with «matches» := ms,
                   selected := (List.range ms.length).map (fun i => (i, true)) }, false)
  else (s, false)

/-- The Select All button (line 359): replace the selection dictionary by
all-true over the current match indices. -/
def cmdSelectAll (s : Session) : Session :=
  { s with selected := (List.range s.matches.length).map (fun i => (i, true)) }

/-- The Clear All button (line 363): replace the selection dictionary by
all-false over the current match indices. -/
def cmdClearAll (s : Session) : Session :=
  { s with selected := (List.range s.matches.length).map (fun i => (i, false)) }

/-- The checkbox write of line 388: selected[idx] = checked. -/
def cmdToggle (s : Session) (idx : Nat) (val : Bool) : Session :=
  { s with selected := setKey s.selected idx val }

/-- The page loop of the manual-redaction block (lines 420 to 431):
for every page whose literal search is non-empty, append one Manual match
carrying that page and its rectangles and set its selection flag. -/
def addManualLoop (custom_text : String) :
    List (Nat × Page) → Session → Bool → Session × Bool
  | [], s, found => (s, found)
  | pp :: rest, s, found =>
      let rects := pp.2.searchFor custom_text
      if rects.isEmpty then addManualLoop custom_text rest s found
      else
        let ms := s.matches ++ [⟨"Manual", custom_text, pp.1 + 1, rects⟩]
        addManualLoop custom_text rest
          { s with «matches» := ms, selected := setKey s.selected (ms.length - 1) true } true

/-- The manual-redaction block of show_main_app (lines 417 to 437): open
the locally uploaded bytes and run the page loop; the outer flag records
the exception of opening unparsable bytes, the inner flag is the found
variable deciding between the success and the not-found message. -/
def cmdAddManual (fitz_open : FitzOpen) (s : Session) (pdf_bytes : List Nat)
    (custom_text : String) : (Session × Bool) × Bool :=
  match fitz_open pdf_bytes with
  | none => ((s, false), true)
  | some doc => (addManualLoop custom_text (enumF 0 doc.pages) s false, false)

/-- The redact button (lines 396 to 399): run redact_pdf on the locally
uploaded bytes over the selected items and store the result; on failure
the session is unchanged and the flag records the exception. -/
def cmdRedact (fitz_open : FitzOpen) (s : Session) (pdf_bytes : List Nat) : Session × Bool :=
  match redact_pdf fitz_open pdf_bytes (selected_items s) with
  | .error _ => (s, true)
  | .ok tr => ({ s with redacted_pdf := some tr }, false)

/-- The download button (lines 402 to 408): when redacted_pdf is present
in the session it is served as is. -/
def downloadData (s : Session) : Option (List REvent) :=
  if s.redacted_pdf.isSome then s.redacted_pdf else none

/-- The highlight list of line 340: the stored matches on the shown page
whose selection flag reads true (default true), looked up through the
first index of the match in the list. -/
def highlightsOf (s : Session) (page_num : Nat) : List PiiMatch :=
  s.matches.filter (fun m =>
    m.page == page_num + 1 && getD s.selected (s.matches.findIdx (fun x => x == m)) true)

/-- The preview step of show_main_app (lines 340 to 343): render the
locally uploaded bytes at the shown page with the current highlights; the
session is only read. -/
def previewStep (fitz_open : FitzOpen) (s : Session) (pdf_bytes : List Nat)
    (page_num : Nat) : Session × Except Unit (Pix × Nat) :=
  (s, render_pdf_preview fitz_open pdf_bytes page_num (highlightsOf s page_num))

/-- One rerun consisting of the upload block followed by a click of the
redact button, both over the locally uploaded bytes, as in show_main_app. -/
def rerunRedact (fitz_open : FitzOpen) (s : Session) (name : String) (bytes : List Nat)
    (is_premium : Bool) : Session × Bool :=
  let r := uploadBlock fitz_open s name bytes is_premium
  if r.2 then (r.1, true) else cmdRedact fitz_open r.1 bytes

/-- The Manual matches the manual-addition loop appends for a given
enumerated page list: one per page whose literal search is non-empty,
carrying that page and its rectangles. -/
def manualNew (custom_text : String) (L : List (Nat × Page)) : List PiiMatch :=
  (L.filter (fun pp => !(pp.2.searchFor custom_text).isEmpty)).map
    (fun pp => ⟨"Manual", custom_text, pp.1 + 1, pp.2.searchFor custom_text⟩)

/-! ### Concrete instances used by the closed theorems and witnesses -/

/-- Sample rectangle. -/
def rA : Rect := ⟨0, 0, 10, 10⟩

/-- Second sample rectangle. -/
def rB : Rect := ⟨20, 20, 30, 30⟩

/-- A stored automatic match. -/
def mC1 : PiiMatch := ⟨"SSN (Full)", "123-45-6789", 1, [rA]⟩

/-- A previously computed redaction output. -/
def trC1 : List REvent := [REvent.mark 0 rA, REvent.commit 0]

/-- A session that has already performed a redact action. -/
def sC1 : Session := ⟨some [1], some "f.pdf", [mC1], [(0, true)], some trC1⟩

/-- An open function whose document contains the literal zzz. -/
def fitz_openC1 : FitzOpen :=
  fun _ => some ⟨[⟨"", fun t => if t == "zzz" then [rB] else []⟩]⟩

/-- A page whose extracted text holds one email address that the
geometric search cannot locate. -/
def pageC2 : Page := ⟨"a@b.com", fun _ => []⟩

/-- The document of pageC2. -/
def docC2 : Doc := ⟨[pageC2]⟩

/-- The open function returning docC2. -/
def fitz_openC2 : FitzOpen := fun _ => some docC2

/-- The session obtained by uploading docC2: its single match has an
empty rectangle list and is selected by default. -/
def sC2 : Session :=
  (uploadBlock fitz_openC2 ⟨none, none, [], [], none⟩ "d.pdf" [9] false).1

/-- First of two redaction items sharing page 1. -/
def iC4a : PiiMatch := ⟨"Email", "x", 1, [rA]⟩

/-- Second of two redaction items sharing page 1. -/
def iC4b : PiiMatch := ⟨"Email", "y", 1, [rB]⟩

/-- A page containing the literal John. -/
def pageYes : Page := ⟨"John example", fun t => if t == "John" then [rA] else []⟩

/-- A page not containing the literal John. -/
def pageNo : Page := ⟨"nothing", fun _ => []⟩

/-- A five-page document whose pages 2 and 5 contain the literal John. -/
def docC6 : Doc := ⟨[pageNo, pageYes, pageNo, pageNo, pageYes]⟩

/-- The open function returning docC6. -/
def fitz_openC6 : FitzOpen := fun _ => some docC6

/-- An empty session over docC6. -/
def sC6 : Session := ⟨some [5], some "a.pdf", [], [], none⟩

/-- A stored match for the selection counterexample. -/
def mC7 : PiiMatch := ⟨"Email", "x@y.zz", 1, [rA]⟩

/-- A session whose single match is deselected. -/
def sC7 : Session := ⟨some [1], some "f.pdf", [mC7], [(0, false)], none⟩

/-- A session whose single match is selected. -/
def sC7w : Session := ⟨some [1], some "f.pdf", [mC7], [(0, true)], none⟩

/-- A page with no content. -/
def pageC9 : Page := ⟨"", fun _ => []⟩

/-- The one-page document of pageC9. -/
def docC9 : Doc := ⟨[pageC9]⟩

/-- The open function returning docC9. -/
def fitz_openC9 : FitzOpen := fun _ => some docC9

/-- A session for the preview witness. -/
def sC9 : Session := ⟨some [3], some "p.pdf", [], [], none⟩

/-- A stored match for the same-filename witness. -/
def mC10 : PiiMatch := ⟨"Phone Number", "555-123-4567", 1, [rA]⟩

/-- A session holding old bytes under the name f.pdf. -/
def sC10 : Session := ⟨some [1], some "f.pdf", [mC10], [(0, true)], none⟩

/-- A blank page for the same-filename witness. -/
def pageC10 : Page := ⟨"", fun _ => []⟩

/-- The one-page document of pageC10. -/
def docC10 : Doc := ⟨[pageC10]⟩

/-- The open function returning docC10. -/
def fitz_openC10 : FitzOpen := fun _ => some docC10

/-! ### Association-list and indexing lemmas -/

/-- Assigning a key makes it read back the assigned value. -/
theorem lookup_setKey_self (sel : List (Nat × Bool)) (k : Nat) (v : Bool) :
    (setKey sel k v).lookup k = some v := by
  induction sel with
  | nil => simp [setKey, List.lookup]
  | cons p rest ih =>
    obtain ⟨pk, pv⟩ := p
    by_cases h : pk = k
    · simp [setKey, h, List.lookup]
    · have hb : (k == pk) = false := by simpa using Ne.symm h
      simp [setKey, h, List.lookup, hb, ih]

/-- Assigning a key leaves every other key unchanged. -/
theorem lookup_setKey_ne (sel : List (Nat × Bool)) (k j : Nat) (v : Bool) (h : j ≠ k) :
    (setKey sel k v).lookup j = sel.lookup j := by
  induction sel with
  | nil =>
    have hb : (j == k) = false := by simpa using h
    simp [setKey, List.lookup, hb]
  | cons p rest ih =>
    obtain ⟨pk, pv⟩ := p
    by_cases hk : pk = k
    · subst hk
      have hb : (j == pk) = false := by simpa using h
      simp [setKey, List.lookup, hb]
    · cases hjp : (j == pk) <;> simp [setKey, hk, List.lookup, hjp, ih]

/-- Assigning false then true over a key that read true restores the
dictionary exactly. -/
theorem setKey_setKey_cancel (sel : List (Nat × Bool)) (k : Nat)
    (h : sel.lookup k = some true) : setKey (setKey sel k false) k true = sel := by
  induction sel with
  | nil => simp [List.lookup] at h
  | cons p rest ih =>
    obtain ⟨pk, pv⟩ := p
    by_cases hk : pk = k
    · subst hk
      have hv : pv = true := by simpa [List.lookup] using h
      subst hv
      simp [setKey]
    · have hb : (k == pk) = false := by simpa using Ne.symm hk
      have h' : rest.lookup k = some true := by simpa [List.lookup, hb] using h
      simp [setKey, hk, ih h']

/-- Membership in the Python enumeration. -/
theorem mem_enumF {p : Page} :
    ∀ (l : List Page) (n k : Nat), l.get? k = some p → (n + k, p) ∈ enumF n l := by
  intro l
  induction l with
  | nil => intro n k h; simp at h
  | cons q t ih =>
    intro n k h
    match k with
    | 0 =>
      simp at h
      subst h
      simp [enumF]
    | k + 1 =>
      have := ih (n + 1) k (by simpa using h)
      have harith : n + (k + 1) = (n + 1) + k := by omega
      rw [harith]
      exact List.mem_cons_of_mem _ this

/-- Python index resolution for the in-range page indices produced by the
match pipeline. -/
theorem pyIndex_of_page (n page : Nat) (h1 : 1 ≤ page) (h2 : page ≤ n) :
    pyIndex n ((page : Int) - 1) = some (page - 1) := by
  unfold pyIndex
  rw [if_pos (by constructor <;> omega)]
  congr 1
  omega

/-- The trace the redaction loop emits when every item carries an in-range
page number: per item, its marks followed by one commit of its page. -/
theorem redactLoop_ok_trace (npages : Nat) (items : List PiiMatch)
    (h : ∀ it ∈ items, 1 ≤ it.page ∧ it.page ≤ npages) :
    redactLoop npages items = .ok (traceOf npages items) := by
  induction items with
  | nil => rfl
  | cons it rest ih =>
    obtain ⟨h1, h2⟩ := h it (List.mem_cons_self it rest)
    have hrest : ∀ x ∈ rest, 1 ≤ x.page ∧ x.page ≤ npages :=
      fun x hx => h x (List.mem_cons_of_mem _ hx)
    have hp := pyIndex_of_page npages it.page h1 h2
    simp [redactLoop, hp, ih hrest, traceOf, pageIdx]

/-- Every mark event of a well-formed trace stems from a rectangle of one
of the items; in particular an item with an empty rectangle list
contributes no mark. -/
theorem traceOf_marks (npages : Nat) (items : List PiiMatch) (p : Nat) (r : Rect)
    (h : REvent.mark p r ∈ traceOf npages items) : ∃ it ∈ items, r ∈ it.rects := by
  simp only [traceOf, List.mem_flatMap, List.mem_append, List.mem_map,
    List.mem_singleton] at h
  obtain ⟨it, hit, hin⟩ := h
  rcases hin with ⟨x, hx, he⟩ | hc
  · cases he
    exact ⟨it, hit, hx⟩
  · cases hc

/-- Reading every position of a list back through its index range returns
the list. -/
theorem filterMap_range_get {α : Type} (m : List α) :
    (List.range m.length).filterMap (fun i => m.get? i) = m := by
  induction m with
  | nil => rfl
  | cons a t ih =>
    have hcomp : (fun i => (a :: t).get? i) ∘ Nat.succ = fun i => t.get? i := by
      funext i; rfl
    rw [List.length_cons, List.range_succ_eq_map, List.filterMap_cons]
    simp only [List.get?_cons_zero, List.filterMap_map, hcomp, ih]

/-- After the Select All button, the selected subset is the whole match
list. -/
theorem selected_items_selectAll (s : Session) :
    selected_items (cmdSelectAll s) = s.matches := by
  unfold selected_items cmdSelectAll
  simp only [List.filter_map, List.filterMap_map]
  have h1 : ((fun p => p.2) ∘ fun i : Nat => (i, true)) = fun _ => true := by
    funext i; rfl
  have h2 : ((fun p : Nat × Bool => s.matches.get? p.1) ∘ fun i : Nat => (i, true))
      = fun i => s.matches.get? i := by
    funext i; rfl
  rw [h1, h2, List.filter_true, filterMap_range_get]

/-- After the Clear All button, the selected subset is empty. -/
theorem selected_items_clearAll (s : Session) :
    selected_items (cmdClearAll s) = [] := by
  unfold selected_items cmdClearAll
  simp only [List.filter_map]
  have h1 : ((fun p => p.2) ∘ fun i : Nat => (i, false)) = fun _ => false := by
    funext i; rfl
  rw [h1, List.filter_false]
  rfl

/-- Full characterisation of the manual-addition page loop: it appends
exactly the Manual matches of manualNew, reports found when at least one
page matched, leaves bytes, filename and redacted output untouched, sets
the selection flag of every appended index to true leaving all other keys
unchanged, and is the identity when no page matched. -/
theorem addManualLoop_char (txt : String) (L : List (Nat × Page)) :
    ∀ (s : Session) (found : Bool),
    (addManualLoop txt L s found).1.matches = s.matches ++ manualNew txt L
    ∧ (addManualLoop txt L s found).2 = (found || !(manualNew txt L).isEmpty)
    ∧ (addManualLoop txt L s found).1.pdf_bytes = s.pdf_bytes
    ∧ (addManualLoop txt L s found).1.filename = s.filename
    ∧ (addManualLoop txt L s found).1.redacted_pdf = s.redacted_pdf
    ∧ (∀ j : Nat, ((addManualLoop txt L s found).1.selected).lookup j =
        if s.matches.length ≤ j ∧ j < s.matches.length + (manualNew txt L).length
        then some true else s.selected.lookup j)
    ∧ (manualNew txt L = [] → addManualLoop txt L s found = (s, found)) := by
  induction L with
  | nil =>
    intro s found
    refine ⟨by simp [addManualLoop, manualNew], by simp [addManualLoop, manualNew],
      rfl, rfl, rfl, ?_, fun _ => rfl⟩
    intro j
    rw [if_neg (by
      simp only [manualNew, List.filter_nil, List.map_nil, List.length_nil]
      omega)]
    rfl
  | cons pp rest ih =>
    intro s found
    by_cases hemp : (pp.2.searchFor txt).isEmpty
    · have hfilter : manualNew txt (pp :: rest) = manualNew txt rest := by
        simp [manualNew, List.filter_cons, hemp]
      have hloop : addManualLoop txt (pp :: rest) s found
          = addManualLoop txt rest s found := by
        simp [addManualLoop, hemp]
      rw [hloop, hfilter]
      exact ih s found
    · have hfilter : manualNew txt (pp :: rest)
          = (⟨"Manual", txt, pp.1 + 1, pp.2.searchFor txt⟩ : PiiMatch)
            :: manualNew txt rest := by
        simp [manualNew, List.filter_cons, hemp]
      have hlen : (s.matches ++
          [(⟨"Manual", txt, pp.1 + 1, pp.2.searchFor txt⟩ : PiiMatch)]).length - 1
          = s.matches.length := by simp
      have hloop : addManualLoop txt (pp :: rest) s found
          = addManualLoop txt rest
              { s with «matches» := s.matches ++ [⟨"Manual", txt, pp.1 + 1, pp.2.searchFor txt⟩],
                       selected := setKey s.selected s.matches.length true } true := by
        rw [addManualLoop]
        simp only [hemp]
        rw [if_neg (by simp [hemp]), hlen]
      obtain ⟨ihm, ihf, ihb, ihn, ihr, ihsel, _⟩ :=
        ih { s with «matches» := s.matches ++ [⟨"Manual", txt, pp.1 + 1, pp.2.searchFor txt⟩],
                    selected := setKey s.selected s.matches.length true } true
      rw [hloop, hfilter]
      refine ⟨?_, ?_, ihb, ihn, ihr, ?_, ?_⟩
      · rw [ihm]
        simp
      · rw [ihf]
        simp
      · intro j
        have := ihsel j
        simp only [List.length_append, List.length_cons, List.length_nil] at this ⊢
        by_cases hj : j = s.matches.length
        · subst hj
          rw [this, if_neg (by omega), if_pos (by omega), lookup_setKey_self]
        · by_cases hrange : s.matches.length + 1 ≤ j
              ∧ j < s.matches.length + 1 + (manualNew txt rest).length
          · rw [this, if_pos hrange, if_pos (by omega)]
          · rw [this, if_neg hrange, if_neg (by omega),
              lookup_setKey_ne s.selected s.matches.length j true hj]
      · intro hc
        exact absurd hc (by simp)

/-! ### Claim theorems -/

/-- C5: running the text matcher with the standard (non-premium) rule set
on the exact input text yields exactly two spans, an SSN Full span
matching 123-45-6789 and a Phone Number span matching 555-123-4567, and no
span from any other rule. -/
theorem C5_matcher_exact :
    find_pii_in_text "SSN: 123-45-6789, call 555-123-4567" false
      = [⟨"SSN (Full)", "123-45-6789", 5, 16⟩,
         ⟨"Phone Number", "555-123-4567", 23, 35⟩] := by decide

/-- C1: after a redact action, the checkbox write, the Select All and
Clear All buttons and the manual addition all mutate the match list or
selection yet leave the stored redacted output in place, and the download
then serves that stale value; the code therefore violates the claimed
invalidation. -/
theorem C1_mutations_keep_stale_redacted :
    ((cmdToggle sC1 0 false).redacted_pdf = some trC1
      ∧ selected_items (cmdToggle sC1 0 false) ≠ selected_items sC1)
    ∧ (cmdSelectAll sC1).redacted_pdf = some trC1
    ∧ (cmdClearAll sC1).redacted_pdf = some trC1
    ∧ (((cmdAddManual fitz_openC1 sC1 [1] "zzz").1.1).redacted_pdf = some trC1
        ∧ ((cmdAddManual fitz_openC1 sC1 [1] "zzz").1.1).matches ≠ sC1.matches)
    ∧ downloadData (cmdToggle sC1 0 false) = some trC1 := by decide

/-- C2 counterexample: a stored match whose literal could not be located
geometrically (empty rectangle list) is selected by default and is a
member of the selected-items list passed to the redaction engine, so it is
not excluded from the items handed to redact_pdf. -/
theorem C2_empty_rects_not_excluded :
    (⟨"Email", "a@b.com", 1, []⟩ : PiiMatch) ∈ sC2.matches
    ∧ (⟨"Email", "a@b.com", 1, []⟩ : PiiMatch) ∈ selected_items sC2
    ∧ (⟨"Email", "a@b.com", 1, ([] : List Rect)⟩ : PiiMatch).rects = [] := by decide

/-- C2 amended: a textual match whose literal the geometric search cannot
locate is retained in the match list with an empty rectangle sequence, and
the redaction pass over any in-range item list succeeds without error,
with every marked rectangle stemming from some item's rectangle list, so
an empty-rectangle match contributes no removal region; such matches are
however passed to the engine, not filtered out. -/
theorem C2_empty_rects_retained_and_safe
    (fitz_open : FitzOpen) (b : List Nat) (doc : Doc) (prem : Bool)
    (k : Nat) (page : Page) (tm : TextMatch)
    (hopen : fitz_open b = some doc) (hpage : doc.pages.get? k = some page)
    (htm : tm ∈ find_pii_in_text page.text prem)
    (hempty : page.searchFor tm.text = [])
    (items : List PiiMatch)
    (hv : ∀ it ∈ items, 1 ≤ it.page ∧ it.page ≤ doc.pages.length) :
    (∃ ms, find_pii_in_pdf fitz_open b prem = .ok ms
        ∧ (⟨tm.type, tm.text, k + 1, []⟩ : PiiMatch) ∈ ms)
    ∧ ∃ tr, redactLoop doc.pages.length items = .ok tr
        ∧ ∀ p r, REvent.mark p r ∈ tr → ∃ it ∈ items, r ∈ it.rects := by
  constructor
  · refine ⟨(enumF 0 doc.pages).flatMap (fun pp =>
      (find_pii_in_text pp.2.text prem).map (fun m =>
        ⟨m.type, m.text, pp.1 + 1, pp.2.searchFor m.text⟩)), ?_, ?_⟩
    · simp [find_pii_in_pdf, hopen]
    · rw [List.mem_flatMap]
      refine ⟨(k, page), by simpa using mem_enumF doc.pages 0 k hpage, ?_⟩
      rw [List.mem_map]
      exact ⟨tm, htm, by rw [hempty]⟩
  · exact ⟨traceOf doc.pages.length items, redactLoop_ok_trace doc.pages.length items hv,
      fun p r hm => traceOf_marks doc.pages.length items p r hm⟩

/-- C2 witness: the amended theorem applied to the concrete one-page
document whose email literal cannot be located. -/
theorem C2_witness :
    ∃ ms, find_pii_in_pdf fitz_openC2 [9] false = .ok ms
      ∧ (⟨"Email", "a@b.com", 1, []⟩ : PiiMatch) ∈ ms :=
  (C2_empty_rects_retained_and_safe fitz_openC2 [9] docC2 false 0 pageC2
    ⟨"Email", "a@b.com", 0, 7⟩ rfl rfl (by decide) rfl
    [⟨"Email", "a@b.com", 1, []⟩] (by decide)).1

/-- C3: uploading unparsable bytes into a fresh session raises during the
scan, but only after the raw bytes and the filename have already been
stored; matches and selection stay unpopulated.  The claim that no session
field is populated fails on the code. -/
theorem C3_invalid_upload_partial_session :
    uploadBlock (fun _ => none) ⟨none, none, [], [], none⟩ "scan.pdf" [1, 2, 3] false
      = (⟨some [1, 2, 3], some "scan.pdf", [], [], none⟩, true) := by decide

/-- C4 counterexample: two items on the same page produce a trace that
commits page 0 twice, the second item's rectangle being marked after the
first commitment, refuting commitment at most once per page after all
marks. -/
theorem C4_commit_twice_same_page :
    redactLoop 1 [iC4a, iC4b]
      = .ok [REvent.mark 0 rA, REvent.commit 0, REvent.mark 0 rB, REvent.commit 0]
    ∧ ([REvent.mark 0 rA, REvent.commit 0, REvent.mark 0 rB,
        REvent.commit 0].countP (fun e => e == REvent.commit 0)) = 2 :=
  ⟨rfl, by decide⟩

/-- C4 amended: in redact(document, items) the commitment is per item, not
per page: for every in-range item list the engine emits, item by item, all
of that item's rectangle marks immediately followed by one commit of that
item's page, so a page carrying several items is committed once per such
item. -/
theorem C4_commit_per_item (npages : Nat) (items : List PiiMatch)
    (h : ∀ it ∈ items, 1 ≤ it.page ∧ it.page ≤ npages) :
    redactLoop npages items = .ok (traceOf npages items) :=
  redactLoop_ok_trace npages items h

/-- C4 witness: the amended theorem at a concrete one-item list. -/
theorem C4_witness :
    redactLoop 2 [⟨"Manual", "x", 2, [rA]⟩]
      = .ok (traceOf 2 [⟨"Manual", "x", 2, [rA]⟩]) :=
  C4_commit_per_item 2 [⟨"Manual", "x", 2, [rA]⟩] (by decide)

/-- C6: for every document and literal, the manual addition appends
exactly one Manual match per page on which the literal occurs, carrying
that page's rectangles, selected by default, leaving the selection of
existing indices and the remaining session fields unchanged; when no page
contains the literal the command reports not found and leaves the session
exactly as it was. -/
theorem C6_addManual_per_page (fitz_open : FitzOpen) (s : Session) (b : List Nat)
    (txt : String) (doc : Doc) (hopen : fitz_open b = some doc) :
    ((cmdAddManual fitz_open s b txt).1.1).matches
        = s.matches ++ manualNew txt (enumF 0 doc.pages)
    ∧ ((cmdAddManual fitz_open s b txt).1.2 = true
        ↔ manualNew txt (enumF 0 doc.pages) ≠ [])
    ∧ (manualNew txt (enumF 0 doc.pages) = []
        → (cmdAddManual fitz_open s b txt).1 = (s, false))
    ∧ (∀ j : Nat, s.matches.length ≤ j
        → j < s.matches.length + (manualNew txt (enumF 0 doc.pages)).length
        → ((cmdAddManual fitz_open s b txt).1.1).selected.lookup j = some true)
    ∧ (∀ j : Nat, j < s.matches.length
        → ((cmdAddManual fitz_open s b txt).1.1).selected.lookup j
            = s.selected.lookup j)
    ∧ ((cmdAddManual fitz_open s b txt).1.1).pdf_bytes = s.pdf_bytes
    ∧ ((cmdAddManual fitz_open s b txt).1.1).filename = s.filename
    ∧ ((cmdAddManual fitz_open s b txt).1.1).redacted_pdf = s.redacted_pdf := by
  have hred : cmdAddManual fitz_open s b txt
      = (addManualLoop txt (enumF 0 doc.pages) s false, false) := by
    simp [cmdAddManual, hopen]
  obtain ⟨hm, hf, hb, hn, hr, hsel, hid⟩ :=
    addManualLoop_char txt (enumF 0 doc.pages) s false
  rw [hred]
  refine ⟨hm, ?_, fun hc => hid hc, ?_, ?_, hb, hn, hr⟩
  · rw [hf]
    rcases hc : manualNew txt (enumF 0 doc.pages) with _ | ⟨a, l⟩ <;> simp [hc]
  · intro j hj1 hj2
    rw [hsel j, if_pos ⟨hj1, hj2⟩]
  · intro j hj
    rw [hsel j, if_neg (by omega)]

/-- C6 witness: the theorem applied to the five-page document whose pages
2 and 5 contain the literal, yielding exactly two Manual matches. -/
theorem C6_witness :
    ((cmdAddManual fitz_openC6 sC6 [5] "John").1.1).matches
      = sC6.matches ++ manualNew "John" (enumF 0 docC6.pages)
    ∧ manualNew "John" (enumF 0 docC6.pages)
      = [⟨"Manual", "John", 2, [rA]⟩, ⟨"Manual", "John", 5, [rA]⟩] :=
  ⟨(C6_addManual_per_page fitz_openC6 sC6 [5] "John" docC6 rfl).1, by decide⟩

/-- C7 counterexample: on a session whose single match is deselected, the
pair toggle(0, false) then toggle(0, true) does not restore the selected
subset, refuting the claim for every valid id. -/
theorem C7_toggle_pair_not_restoring :
    selected_items (cmdToggle (cmdToggle sC7 0 false) 0 true)
      ≠ selected_items sC7 := by decide

/-- C7 amended: after the Select All button the selected subset is the
whole match list (manual matches included), after Clear All it is empty,
and the pair toggle(id, false) then toggle(id, true) restores the session
exactly for every id that was selected beforehand; toggle overwrites the
flag, so membership is restored only for such ids. -/
theorem C7_selection_ops (s : Session) (idx : Nat)
    (h : s.selected.lookup idx = some true) :
    selected_items (cmdSelectAll s) = s.matches
    ∧ selected_items (cmdClearAll s) = []
    ∧ cmdToggle (cmdToggle s idx false) idx true = s := by
  refine ⟨selected_items_selectAll s, selected_items_clearAll s, ?_⟩
  show ({ s with selected := setKey (setKey s.selected idx false) idx true } : Session) = s
  rw [setKey_setKey_cancel s.selected idx h]

/-- C7 witness: the amended theorem on a session whose single match is
selected. -/
theorem C7_witness :
    selected_items (cmdSelectAll sC7w) = sC7w.matches
    ∧ selected_items (cmdClearAll sC7w) = []
    ∧ cmdToggle (cmdToggle sC7w 0 false) 0 true = sC7w :=
  C7_selection_ops sC7w 0 (by decide)

/-- C9: rendering a preview leaves the session untouched, and the
highlight rectangles are drawn only on the rasterisation result of the
per-call handle opened from the bytes: the page value of the freshly
opened document appears unchanged in the output next to the overlay. -/
theorem C9_preview_readonly (fitz_open : FitzOpen) (s : Session) (b : List Nat)
    (pn : Nat) (doc : Doc) (page : Page)
    (hopen : fitz_open b = some doc) (hpage : doc.pages.get? pn = some page) :
    (previewStep fitz_open s b pn).1 = s
    ∧ render_pdf_preview fitz_open b pn (highlightsOf s pn)
        = .ok (⟨page, ((highlightsOf s pn).filter (fun h => h.page == pn + 1)).flatMap
            (fun h => h.rects)⟩, doc.pages.length) := by
  refine ⟨rfl, ?_⟩
  have hpage2 : doc.pages[pn]? = some page := by
    simpa [List.get?_eq_getElem?] using hpage
  simp [render_pdf_preview, hopen, hpage2]

/-- C9 witness: the theorem at a concrete session and one-page document. -/
theorem C9_witness :
    (previewStep fitz_openC9 sC9 [3] 0).1 = sC9
    ∧ render_pdf_preview fitz_openC9 [3] 0 (highlightsOf sC9 0)
        = .ok (⟨pageC9, ((highlightsOf sC9 0).filter (fun h => h.page == 0 + 1)).flatMap
            (fun h => h.rects)⟩, docC9.pages.length) :=
  C9_preview_readonly fitz_openC9 sC9 [3] 0 docC9 pageC9 rfl rfl

/-- C10: uploading a file whose name equals the stored filename leaves the
whole session (bytes, matches, selection) unchanged even for different
byte content, and the subsequent preview and redaction run on the newly
uploaded local bytes while using the stored matches. -/
theorem C10_same_filename_stale_matches (fitz_open : FitzOpen) (s : Session)
    (name : String) (b : List Nat) (prem : Bool) (pn : Nat)
    (h1 : s.filename = some name) (h2 : s.pdf_bytes ≠ none) :
    uploadBlock fitz_open s name b prem = (s, false)
    ∧ previewStep fitz_open s b pn
        = (s, render_pdf_preview fitz_open b pn (highlightsOf s pn))
    ∧ rerunRedact fitz_open s name b prem = cmdRedact fitz_open s b := by
  have hcond : ¬ (s.pdf_bytes = none ∨ s.filename ≠ some name) := by
    rintro (hc | hc)
    · exact h2 hc
    · exact hc h1
  have hup : uploadBlock fitz_open s name b prem = (s, false) := by
    unfold uploadBlock
    rw [if_neg hcond]
  refine ⟨hup, rfl, ?_⟩
  unfold rerunRedact
  rw [hup]
  simp

/-- C10 witness: the theorem on a session storing bytes [1] under f.pdf
while bytes [2] are uploaded under the same name. -/
theorem C10_witness :
    uploadBlock fitz_openC10 sC10 "f.pdf" [2] false = (sC10, false)
    ∧ previewStep fitz_openC10 sC10 [2] 0
        = (sC10, render_pdf_preview fitz_openC10 [2] 0 (highlightsOf sC10 0))
    ∧ rerunRedact fitz_openC10 sC10 "f.pdf" [2] false = cmdRedact fitz_openC10 sC10 [2] :=
  C10_same_filename_stale_matches fitz_openC10 sC10 "f.pdf" [2] false 0 rfl (by decide)

end PdfRedactor
